import Mathlib

/-!
Verification development for the AI-Agent-for-finance repository.

Each definition below is a shallow embedding of a function of the Python
source (file and symbol named in its doc comment).  Python dictionaries are
modelled as insertion-ordered association lists, Python floats as rationals
(only additive accounting is at stake, never rounding), fallible calls as
`Except`/`Option` values, and stateful methods as explicit state-passing
functions.
-/

namespace AgentFinance

/-! ## Tool contract: `app/tools/base.py`, class `BaseTool` -/

/-- A JSON-schema-shaped input schema: the `required` field names and the
`properties` map from field name to declared JSON type name
(`app/tools/base.py`, `input_schema`). -/
structure ToolSchema where
  required : List String
  properties : List (String × String)
  deriving Repr, DecidableEq

/-- A Python value as passed in a tool's keyword arguments. -/
inductive PyValue where
  | str (s : String)
  | int (n : Int)
  | num (q : Rat)
  | bool (b : Bool)
  | list (elems : List PyValue)
  | dict (fields : List (String × PyValue))
  | none
  deriving Repr

/-- The JSON type name a `PyValue` satisfies under `BaseTool._get_python_type`
(`app/tools/base.py` lines 57-68); used only by the non-fatal warning path. -/
def PyValue.matchesJsonType : PyValue → String → Bool
  | .str _, t => t = "string"
  | .int _, t => t = "integer"
  | .num _, t => t = "number"
  | .bool _, t => t = "boolean"
  | .list _, t => t = "array"
  | .dict _, t => t = "object"
  | .none, _ => false

/-- `BaseTool.validate_input` (`app/tools/base.py` lines 34-55): returns
`false` exactly when a required field is missing from the keyword arguments;
the type-checking loop only logs a warning and never changes the returned
value, so the declared property types do not appear in the result. -/
def validateInput (schema : ToolSchema) (params : List (String × PyValue)) : Bool :=
  schema.required.all (fun f => params.any (fun p => p.1 = f))

/-- The `{success, result, error}` dictionary a tool's `execute` returns. -/
structure ToolResult where
  success : Bool
  result : PyValue
  error : Option String
  deriving Repr

/-- Outcome of awaiting `self.execute(**kwargs)`: a returned dictionary or a
raised exception with its message. -/
inductive ExecOutcome where
  | ok (r : ToolResult)
  | exn (msg : String)
  deriving Repr

/-- The mutable per-tool counters of `BaseTool.__init__`. -/
structure ToolState where
  usage_count : Nat
  error_count : Nat
  deriving Repr, DecidableEq

/-- Counters at construction time (`app/tools/base.py` lines 12-16). -/
def ToolState.init : ToolState := ⟨0, 0⟩

/-- What one call to `BaseTool.run` produced: the updated counters, the
returned dictionary, and whether `execute` was entered at all. -/
structure RunOutput where
  state : ToolState
  result : ToolResult
  calledExecute : Bool
  deriving Repr

/-- `BaseTool.run` (`app/tools/base.py` lines 70-97): bump `usage_count`;
on validation failure return the fixed invalid-parameters failure without
entering `execute`; on an exception from `execute` bump `error_count` and
return `{success:false, error:<message>}`; on a returned result with falsy
`success` bump `error_count` but return the result unchanged; otherwise
return the result unchanged.  `execOutcome` stands for what awaiting
`self.execute(**kwargs)` would do on these arguments. -/
def runTool (schema : ToolSchema) (st : ToolState) (params : List (String × PyValue))
    (execOutcome : ExecOutcome) : RunOutput :=
  let st := { st with usage_count := st.usage_count + 1 }
  if validateInput schema params then
    match execOutcome with
    | .ok r =>
        if r.success then
          { state := st, result := r, calledExecute := true }
        else
          { state := { st with error_count := st.error_count + 1 },
            result := r, calledExecute := true }
    | .exn msg =>
        { state := { st with error_count := st.error_count + 1 },
          result := { success := false, result := .none, error := some msg },
          calledExecute := true }
  else
    { state := { st with error_count := st.error_count + 1 },
      result := { success := false, result := .none, error := some "Invalid input parameters" },
      calledExecute := false }

/-- `BaseTool.get_stats` (`app/tools/base.py` lines 99-108): success rate is
`(usage - error) / usage`, or `0` when the tool was never used. -/
def successRate (st : ToolState) : Rat :=
  if st.usage_count > 0 then
    ((st.usage_count : Rat) - (st.error_count : Rat)) / (st.usage_count : Rat)
  else 0

/-- Run a whole sequence of `run` calls from a starting state, ignoring the
returned dictionaries (used for counter invariants). -/
def runToolTrace (st : ToolState)
    (calls : List (ToolSchema × List (String × PyValue) × ExecOutcome)) : ToolState :=
  calls.foldl (fun s c => (runTool c.1 s c.2.1 c.2.2).state) st

/-! ## Character-level string primitives

The Python string methods the source uses (`str.upper`, `str.lower`,
`in`, `str.startswith`, `str.split("/")`) are modelled by the following
structural functions over the character list of a `String` (ASCII case
mapping, which is all the source's literals need). -/

/-- Python `str.upper` on one ASCII character. -/
def charUpper (c : Char) : Char := if c.isLower then Char.ofNat (c.toNat - 32) else c

/-- Python `str.lower` on one ASCII character. -/
def charLower (c : Char) : Char := if c.isUpper then Char.ofNat (c.toNat + 32) else c

/-- Python `str.upper`. -/
def strUpper (s : String) : String := String.mk (s.toList.map charUpper)

/-- Python `str.lower`. -/
def strLower (s : String) : String := String.mk (s.toList.map charLower)

/-- Python `str.startswith`. -/
def strStartsWith (s pre : String) : Bool := pre.toList.isPrefixOf s.toList

/-- `sub` occurs as a contiguous run inside `l`. -/
def listContainsSub (sub l : List Char) : Bool := l.tails.any (fun t => sub.isPrefixOf t)

/-- Python `sub in s` substring containment. -/
def strContains (s sub : String) : Bool := listContainsSub sub.toList s.toList

/-- Python `str.split(sep)` for a one-character separator. -/
def splitOnChar (sep : Char) : List Char → List (List Char)
  | [] => [[]]
  | c :: rest =>
      if c = sep then [] :: splitOnChar sep rest
      else
        match splitOnChar sep rest with
        | [] => [[c]]
        | h :: t => (c :: h) :: t

/-! ## Persistence: `app/database/crud.py` over the `Execution` table

Timestamps are abstract ticks (`Nat`); `datetime.utcnow()` at a call site is
passed in as the `now` argument.  A session's visible table state is a list
of rows in insertion order; the ORM's `.first()` is `List.find?`. -/

/-- One row of the `executions` table (`app/database/models.py`). -/
structure Execution where
  id : String
  goal : String
  status : String
  created_at : Nat
  updated_at : Nat
  completed_at : Option Nat
  cost : Rat
  tokens_used : Int
  llm_provider : Option String
  error_message : Option String
  final_result : List (String × PyValue)
  deleted_at : Option Nat
  deriving Repr

/-- The optional keyword arguments of `update_execution`
(`app/database/crud.py` lines 29-38). -/
structure UpdateArgs where
  status : Option String := Option.none
  cost : Option Rat := Option.none
  tokens_used : Option Int := Option.none
  llm_provider : Option String := Option.none
  error_message : Option String := Option.none
  final_result : List (String × PyValue) := []
  deriving Repr

/-- Python truthiness of an `Optional[str]`: present and non-empty. -/
def strTruthy : Option String → Bool
  | Option.none => false
  | some s => s ≠ ""

/-- `create_execution` (`app/database/crud.py` lines 14-20): a fresh pending
row with the model's column defaults (`app/database/models.py`). -/
def create_execution (db : List Execution) (newId goal : String) (now : Nat) :
    List Execution :=
  db ++ [{ id := newId, goal := goal, status := "pending", created_at := now,
           updated_at := now, completed_at := Option.none, cost := 0,
           tokens_used := 0, llm_provider := Option.none,
           error_message := Option.none, final_result := [],
           deleted_at := Option.none }]

/-- `get_execution` (`app/database/crud.py` lines 23-26): first row with the
given id whose `deleted_at` is NULL. -/
def get_execution (db : List Execution) (execId : String) : Option Execution :=
  db.find? (fun e => e.id = execId ∧ e.deleted_at = Option.none)

/-- Mutate the first row satisfying `p` (the ORM object `.first()` handed
back — the one object the session mutates in place). -/
def updateFirst (p : Execution → Bool) (f : Execution → Execution) :
    List Execution → List Execution
  | [] => []
  | e :: rest => if p e then f e :: rest else e :: updateFirst p f rest

/-- The field assignments of `update_execution` (`app/database/crud.py`
lines 44-60) applied to the fetched row: `status` only when truthy (terminal
statuses stamp `completed_at`), `cost`/`tokens_used` added when not None,
`llm_provider`/`error_message` when truthy, `final_result` when a non-empty
dict; `updated_at` always stamped. -/
def applyExecutionUpdate (e : Execution) (args : UpdateArgs) (now : Nat) : Execution :=
  let e := if strTruthy args.status then
      { e with status := args.status.getD "",
               completed_at :=
                 if args.status.getD "" ∈ ["completed", "failed", "cancelled"] then
                   some now
                 else e.completed_at }
    else e
  let e := match args.cost with
    | some c => { e with cost := e.cost + c }
    | Option.none => e
  let e := match args.tokens_used with
    | some t => { e with tokens_used := e.tokens_used + t }
    | Option.none => e
  let e := if strTruthy args.llm_provider then { e with llm_provider := args.llm_provider } else e
  let e := if strTruthy args.error_message then { e with error_message := args.error_message } else e
  let e := if args.final_result.isEmpty then e else { e with final_result := args.final_result }
  { e with updated_at := now }

/-- `update_execution` (`app/database/crud.py` lines 29-63): fetch via
`get_execution`; when absent return the table unchanged, else mutate that
row in place and commit. -/
def update_execution (db : List Execution) (execId : String) (args : UpdateArgs)
    (now : Nat) : List Execution :=
  match get_execution db execId with
  | Option.none => db
  | some _ =>
      updateFirst (fun e => e.id = execId ∧ e.deleted_at = Option.none)
        (fun e => applyExecutionUpdate e args now) db

/-- Case-insensitive substring test, the semantics of `ilike '%s%'`
(`app/database/crud.py` line 79). -/
def containsCI (s sub : String) : Bool :=
  strContains (strLower s) (strLower sub)

/-- `list_executions` (`app/database/crud.py` lines 66-81): non-deleted rows,
optional status equality and case-insensitive goal-substring filters, newest
first by `created_at`, then offset/limit pagination. -/
def list_executions (db : List Execution) (skip limit : Nat)
    (status : Option String) (search : Option String) : List Execution :=
  let q := db.filter (fun e => e.deleted_at = Option.none)
  let q := if strTruthy status then q.filter (fun e => e.status = status.getD "") else q
  let q := if strTruthy search then q.filter (fun e => containsCI e.goal (search.getD "")) else q
  ((q.mergeSort (fun a b => b.created_at ≤ a.created_at)).drop skip).take limit

/-- `delete_execution` (`app/database/crud.py` lines 84-93): fetch via
`get_execution`; absent → `false` and no change; present → stamp
`deleted_at`, force status to `cancelled`, commit, return `true`. -/
def delete_execution (db : List Execution) (execId : String) (now : Nat) :
    List Execution × Bool :=
  match get_execution db execId with
  | Option.none => (db, false)
  | some _ =>
      (updateFirst (fun e => e.id = execId ∧ e.deleted_at = Option.none)
        (fun e => { e with deleted_at := some now, status := "cancelled" }) db, true)

/-! ## LLM provider manager: `app/core/llm_provider.py`, class `LLMProviderManager`

A configured provider's behaviour on one call is abstracted as an
`Except String GenResult`: the dictionary it would return, or the message of
the exception it would raise.  `generate` (lines 543-564) and
`generate_with_tools` (lines 588-609) have the identical dispatch structure
modelled here; only the provider method invoked differs. -/

/-- The dictionary a provider call returns. -/
structure GenResult where
  content : String
  tokens_used : Nat
  cost : Rat
  model : String
  deriving Repr, DecidableEq

/-- The recursive activation with `use_fallback=True`
(`app/core/llm_provider.py` line 563 calling back into lines 543-564): the
selected provider is the fallback; on its exception the
`if not use_fallback` guard fails, so the fallback's own exception is
re-raised. -/
def managerCallFallbackLeg (fallback : Option (Except String GenResult)) :
    Except String GenResult :=
  match fallback with
  | Option.none => .error "No LLM provider available"
  | some (.ok r) => .ok r
  | some (.error e) => .error e

/-- The outer activation with `use_fallback=False`
(`app/core/llm_provider.py` lines 543-564): try the primary; on any
exception, if a fallback provider is configured, recurse with
`use_fallback=True`, else re-raise the primary's exception. -/
def managerCall (primary fallback : Option (Except String GenResult)) :
    Except String GenResult :=
  match primary with
  | Option.none => .error "No LLM provider available"
  | some (.ok r) => .ok r
  | some (.error _e) =>
      if fallback.isSome then managerCallFallbackLeg fallback
      else .error _e

/-! ## Legacy execution engine: `app/core/executor.py`, class `ExecutionEngine`

The per-engine `circuit_breakers` dict (tool name → consecutive-failure
count, missing key read as 0 via `.get(…, 0)`) is modelled as a total
function `String → Nat`. -/

/-- `ExecutionEngine.max_failures` (`app/core/executor.py` line 32). -/
def maxFailures : Nat := 3

/-- How one `_execute_task` call turns out, seen from the circuit breaker:
either `_execute_with_retry` returned a result dict with the given `success`
flag and error text, or an exception was raised before the tool was invoked
(unknown tool name, or parameter validation failure, lines 160-181). -/
inductive TaskExecResult where
  | res (success : Bool) (errMsg : String)
  | raised (msg : String)
  deriving Repr, DecidableEq

/-- Observable outcome of one `_execute_task` call: the failure message of
its `task_failed` event (if it failed), and whether the tool's `run` was
entered. -/
structure TaskOutcome where
  failedMessage : Option String
  toolInvoked : Bool
  deriving Repr, DecidableEq

/-- `ExecutionEngine._execute_task` (`app/core/executor.py` lines 123-236),
restricted to its effect on `circuit_breakers` and the task outcome: an open
breaker (count ≥ 3) short-circuits with the disabled-tool message before any
tool lookup (lines 131-141); otherwise the tool runs and its result sets the
breaker to 0 on success or bumps it on failure (lines 186-190); the
pre-invocation exception path leaves the breakers untouched (lines 222-236).
Database writes are outside this model. -/
def executeTaskStep (breakers : String → Nat) (toolName : String)
    (outcome : TaskExecResult) : (String → Nat) × TaskOutcome :=
  if breakers toolName ≥ maxFailures then
    (breakers,
     { failedMessage := some ("Tool " ++ toolName ++ " is disabled due to repeated failures"),
       toolInvoked := false })
  else
    match outcome with
    | .raised msg =>
        (breakers, { failedMessage := some ("Task failed: " ++ msg), toolInvoked := false })
    | .res success errMsg =>
        (fun t => if t = toolName then (if success then 0 else breakers toolName + 1)
                  else breakers t,
         { failedMessage := if success then Option.none else some errMsg,
           toolInvoked := true })

/-- Fold a sequence of task executions through the engine's breaker state. -/
def runTasks (breakers : String → Nat) (steps : List (String × TaskExecResult)) :
    String → Nat :=
  steps.foldl (fun b s => (executeTaskStep b s.1 s.2).1) breakers

/-! ## File operations tool: `app/tools/file_ops.py`, class `FileOpsTool`

Filesystem paths are lists of components below the filesystem root.  The
project root and the workspace directory exist as directories; `open(p, "w")`
on a directory raises, so a write to such a path fails without creating
anything. -/

/-- Stand-in for `Path(".").resolve()` (`app/tools/file_ops.py` line 22). -/
def projectRoot : List String := ["project"]

/-- `self.work_dir` (`app/tools/file_ops.py` line 23). -/
def workDir : List String := projectRoot ++ ["file_workspace"]

/-- The parts of a `pathlib.Path`: split on `/`, dropping empty and `"."`
components (`..` is kept, as pathlib does). -/
def pathParts (s : String) : List String :=
  ((splitOnChar '/' s.toList).map String.mk).filter (fun c => c ≠ "" ∧ c ≠ ".")

/-- `pathlib.Path(s).name`: the last part, or `""` when there is none. -/
def pathName (s : String) : String := ((pathParts s).getLast?).getD ""

/-- `Path.resolve()` applied to `base` extended by `comps` on a symlink-free
tree: `..` pops one component. -/
def resolveUnder (base : List String) (comps : List String) : List String :=
  comps.foldl (fun acc c => if c = ".." then acc.dropLast else acc ++ [c]) base

/-- What a `file_ops` write produced. -/
structure FileWriteOutcome where
  success : Bool
  error : Option String
  written : Option (List String)
  deriving Repr, DecidableEq

/-- `(self.work_dir / requested_path.name).resolve()` of the write branch
(`app/tools/file_ops.py` line 70); joining with an empty name yields
`work_dir` itself, and a `..` name resolves to the project root. -/
def fileOpsWriteTarget (file_path : String) : List String :=
  resolveUnder workDir (if pathName file_path = "" then [] else [pathName file_path])

/-- The write branch of `FileOpsTool.execute` (`app/tools/file_ops.py`
lines 53-97 and 146-198): the target is `work_dir / Path(file_path).name`
resolved (line 70), checked to lie under the project root (lines 84-89; the
source compares rendered path strings with `startswith`, which agrees with
the component-prefix test on every candidate this branch produces, since the
target is always `work_dir`, the project root, or `work_dir/<name>`); a
missing/falsy `data` is an error (lines 147-152); csv/json/text writes open
the target — a directory target makes `open` raise, caught at lines 207-213
and reported as a failure with nothing written; other types are unsupported
(lines 193-198). -/
def fileOpsWriteExec (file_path fileType : String) (hasData : Bool) : FileWriteOutcome :=
  if !(projectRoot.isPrefixOf (fileOpsWriteTarget file_path)) then
    { success := false, error := some "Access denied: file path escapes project workspace",
      written := Option.none }
  else if !hasData then
    { success := false, error := some "Data required for write operation",
      written := Option.none }
  else if fileType = "csv" ∨ fileType = "json" ∨ fileType = "text" then
    if fileOpsWriteTarget file_path = projectRoot ∨ fileOpsWriteTarget file_path = workDir then
      { success := false, error := some "File operation failed: is a directory",
        written := Option.none }
    else
      { success := true, error := Option.none, written := some (fileOpsWriteTarget file_path) }
  else
    { success := false, error := some ("Write operation not supported for " ++ fileType),
      written := Option.none }

/-! ## Dependency resolution: `ExecutionEngine._resolve_dependencies`
(`app/core/executor.py` lines 238-296) -/

/-- A stored task result as read from `self.task_results[dep_id]`. -/
structure DepResult where
  success : Bool
  result : PyValue
  error : Option String
  deriving Repr

/-- `result_data.upper() == "PLACEHOLDER"` on a string value
(`app/core/executor.py` lines 265, 278, 287). -/
def isPlaceholderStr : PyValue → Bool
  | .str s => strUpper s = "PLACEHOLDER"
  | _ => false

/-- Python dict assignment `d[k] = v`: overwrite in place, else append. -/
def dictSet (d : List (String × PyValue)) (k : String) (v : PyValue) :
    List (String × PyValue) :=
  if d.any (fun p => p.1 = k) then d.map (fun p => if p.1 = k then (k, v) else p)
  else d ++ [(k, v)]

/-- `k in d` for a Python dict. -/
def dictHasKey (d : List (String × PyValue)) (k : String) : Bool :=
  d.any (fun p => p.1 = k)

/-- `d.get k` for a Python dict. -/
def dictGet (d : List (String × PyValue)) (k : String) : Option PyValue :=
  (d.find? (fun p => p.1 = k)).map (fun p => p.2)

/-- One iteration of the `for dep_id in task.dependencies` loop
(`app/core/executor.py` lines 246-290), threading the `(params, dep_results)`
pair: absent results are skipped; a failed dependency injects the two marker
keys; a `None` or placeholder-string result is skipped entirely; otherwise
the result is injected under `dep_<id>` and into `dep_results`, and a dict
result additionally has its top-level non-placeholder entries flattened in
(the source's `key not in params or key not in ['code','timeout']` condition
kept verbatim); the `elif isinstance(..., (int, float, str))` arm only
re-assigns `dep_results[dep_id]`, which is a no-op. -/
def resolveDepOne (acc : List (String × PyValue) × List (String × PyValue))
    (depId : String) (depResult : Option DepResult) :
    List (String × PyValue) × List (String × PyValue) :=
  match depResult with
  | Option.none => acc
  | some dr =>
    if !dr.success then
      (dictSet (dictSet acc.1 ("dep_" ++ depId ++ "_failed") (.bool true))
               ("dep_" ++ depId ++ "_error") (.str (dr.error.getD "Unknown error")),
       acc.2)
    else
      match dr.result with
      | .none => acc
      | rd =>
        if isPlaceholderStr rd then acc
        else
          let params := dictSet acc.1 ("dep_" ++ depId) rd
          let depResults := dictSet acc.2 depId rd
          match rd with
          | .dict fields =>
              fields.foldl
                (fun pd kv =>
                  if isPlaceholderStr kv.2 then pd
                  else if !(dictHasKey pd.1 kv.1) ∨ !(kv.1 = "code" ∨ kv.1 = "timeout") then
                    (dictSet pd.1 kv.1 kv.2, dictSet pd.2 kv.1 kv.2)
                  else pd)
                (params, depResults)
          | .int _ | .num _ | .str _ => (params, dictSet depResults depId rd)
          | _ => (params, depResults)

/-- `ExecutionEngine._resolve_dependencies` (`app/core/executor.py`
lines 238-296): fold the dependency list, then expose the collected results
under `dep_results` when non-empty. -/
def resolveDependencies (inputParams : List (String × PyValue)) (deps : List String)
    (taskResults : String → Option DepResult) : List (String × PyValue) :=
  let pd := deps.foldl (fun acc d => resolveDepOne acc d (taskResults d)) (inputParams, [])
  if pd.2.isEmpty then pd.1 else dictSet pd.1 "dep_results" (.dict pd.2)

/-! ## Generic HTTP tool: `app/tools/api_client.py`, class `APIClientTool` -/

/-- Observable outcome of one `APIClientTool.execute` call; everything after
the placeholder guard — the real HTTP round-trip, parsing, auth-fallback —
is abstracted into the `http` oracle, which always marks `httpAttempted`. -/
structure APIOutcome where
  success : Bool
  error : Option String
  httpAttempted : Bool
  deriving Repr, DecidableEq

/-- The placeholder guard of `APIClientTool.execute`
(`app/tools/api_client.py` line 137): a truthy url equal to `PLACEHOLDER`
case-insensitively, or starting with the literal `PLACEHOLDER`. -/
def apiClientPlaceholderGuard (url : String) : Bool :=
  url ≠ "" ∧ (strUpper url = "PLACEHOLDER" ∨ strStartsWith url "PLACEHOLDER")

/-- `APIClientTool.execute` (`app/tools/api_client.py` lines 123-183) up to
the dispatch on the HTTP method: the guard short-circuits before any session
is opened; otherwise the call proceeds to the network. -/
def apiClientExecute (url method : String) (http : String → String → APIOutcome) :
    APIOutcome :=
  if apiClientPlaceholderGuard url then
    { success := false,
      error := some "URL contains placeholder value. This task likely depends on a previous task that failed.",
      httpAttempted := false }
  else http url method

/-! ## Memory system: `app/core/memory.py`, class `MemorySystem` -/

/-- `MemorySystem._generate_context_with_llm` (`app/core/memory.py`
lines 207-215): the LLM call's outcome is abstracted as an
`Except String String`; success returns the stripped content, any exception
falls back to the `"Execution goal: {goal}"` template. -/
def generate_context_with_llm (llmGenerate : Except String String) (goal : String) :
    String :=
  match llmGenerate with
  | .ok content => content.trim
  | .error _ => "Execution goal: " ++ goal

/-- The `context` argument `MemorySystem.store_execution` passes to
`create_memory_entry` (`app/core/memory.py` line 72): the LLM path when a
primary provider object is configured, else the inline
`f"Execution {execution_id}: {goal}"` template. -/
def store_execution_context (primaryConfigured : Bool)
    (llmGenerate : Except String String) (executionId goal : String) : String :=
  if primaryConfigured then generate_context_with_llm llmGenerate goal
  else "Execution " ++ executionId ++ ": " ++ goal

/-! ## Direct ReAct agent: `app/core/react_agent_direct.py`,
class `ReActAgentDirect`

The LLM's behaviour over a whole execution is abstracted as an oracle from
the iteration number (1-based, as in the source) to the response dictionary
`generate_with_tools` returns for that iteration; this subsumes any
dependence on the accumulated conversation.  Events and memory storage do
not influence the control flow modelled here. -/

/-- The response dictionary of `generate_with_tools` as consumed by the
loop: content text, the tool-call list (name and raw argument string), and
the accounting fields. -/
structure LLMToolResponse where
  content : String
  toolCalls : List (String × String)
  tokens_used : Nat
  cost : Rat
  deriving Repr

/-- The indicator list of `ReActAgentDirect._is_final_answer`
(`app/core/react_agent_direct.py` lines 480-492). -/
def finalAnswerIndicators : List String :=
  ["FINAL ANSWER:", "final answer:", "Final Answer:", "In conclusion,",
   "To summarize,", "Here's the complete answer"]

/-- `ReActAgentDirect._is_final_answer` (`app/core/react_agent_direct.py`
lines 480-492): any indicator occurs (`in`) in the lower-cased content. -/
def isFinalAnswerContent (content : String) : Bool :=
  finalAnswerIndicators.any (fun ind => strContains (strLower content) (strLower ind))

/-- The loop-relevant running state of `execute_goal`. -/
structure LoopState where
  iteration : Nat
  total_cost : Rat
  total_tokens : Nat
  finalAnswer : Option String
  deriving Repr

/-- The `while not task_complete and iteration < self.max_iterations` loop of
`ReActAgentDirect.execute_goal` (`app/core/react_agent_direct.py`
lines 77-213): each pass increments `iteration`, accumulates cost/tokens,
and completes with the content as final answer exactly when the response has
truthy content, no tool calls, and a final-answer indicator; every other
shape (tool calls, empty content, plain reasoning plus the synthetic nudge)
just continues. -/
def reactLoopGo (responses : Nat → LLMToolResponse) (maxIterations : Nat)
    (st : LoopState) : LoopState :=
  if h : st.finalAnswer = Option.none ∧ st.iteration < maxIterations then
    let it := st.iteration + 1
    let resp := responses it
    let st' : LoopState :=
      { iteration := it,
        total_cost := st.total_cost + resp.cost,
        total_tokens := st.total_tokens + resp.tokens_used,
        finalAnswer :=
          if resp.content ≠ "" ∧ resp.toolCalls.isEmpty ∧ isFinalAnswerContent resp.content
          then some resp.content else Option.none }
    reactLoopGo responses maxIterations st'
  else st
termination_by maxIterations - st.iteration
decreasing_by omega

/-- What `execute_goal` leaves behind on its normal path: the iteration
count, the final answer, and the `update_execution` keyword arguments of the
terminal database write (`app/core/react_agent_direct.py` lines 215-233). -/
structure ReActOutcome where
  iterations : Nat
  finalAnswer : String
  updateArgs : UpdateArgs
  deriving Repr

/-- `ReActAgentDirect.execute_goal` after the loop
(`app/core/react_agent_direct.py` lines 215-233): the max-iterations message
when the cap was hit without completion, the `"Task completed."` default for
a falsy answer, and the terminal `update_execution` call with
`status="completed"` and `final_result={answer, iterations}`. -/
def execute_goal (responses : Nat → LLMToolResponse) (maxIterations : Nat) :
    ReActOutcome :=
  let st := reactLoopGo responses maxIterations
    { iteration := 0, total_cost := 0, total_tokens := 0, finalAnswer := Option.none }
  let final1 : Option String :=
    if st.iteration ≥ maxIterations ∧ st.finalAnswer = Option.none then
      some "Maximum iterations reached. Task may be incomplete."
    else st.finalAnswer
  let finalAnswer :=
    match final1 with
    | some a => if a = "" then "Task completed." else a
    | Option.none => "Task completed."
  { iterations := st.iteration,
    finalAnswer := finalAnswer,
    updateArgs :=
      { status := some "completed",
        cost := some st.total_cost,
        tokens_used := some (st.total_tokens : Int),
        final_result := [("answer", .str finalAnswer), ("iterations", .int st.iteration)] } }

/-- `ReActAgentDirect(max_iterations=20)`: the default cap
(`app/core/react_agent_direct.py` lines 21, 496). -/
def defaultMaxIterations : Nat := 20

/-! ## Helper lemmas -/

theorem runTool_usage (schema : ToolSchema) (st : ToolState)
    (params : List (String × PyValue)) (o : ExecOutcome) :
    (runTool schema st params o).state.usage_count = st.usage_count + 1 := by
  unfold runTool
  by_cases hv : validateInput schema params
  · cases o with
    | ok r => by_cases hr : r.success <;> simp [hv, hr]
    | exn m => simp [hv]
  · simp [hv]

theorem runTool_error (schema : ToolSchema) (st : ToolState)
    (params : List (String × PyValue)) (o : ExecOutcome) :
    (runTool schema st params o).state.error_count = st.error_count +
      (if validateInput schema params then
        (match o with
         | .ok r => if r.success then 0 else 1
         | .exn _ => 1)
       else 1) := by
  unfold runTool
  by_cases hv : validateInput schema params
  · cases o with
    | ok r => by_cases hr : r.success <;> simp [hv, hr]
    | exn m => simp [hv]
  · simp [hv]

theorem runToolTrace_counts (st : ToolState)
    (calls : List (ToolSchema × List (String × PyValue) × ExecOutcome))
    (h : st.error_count ≤ st.usage_count) :
    (runToolTrace st calls).error_count ≤ (runToolTrace st calls).usage_count := by
  induction calls generalizing st with
  | nil => exact h
  | cons c rest ih =>
      have hu := runTool_usage c.1 st c.2.1 c.2.2
      have he := runTool_error c.1 st c.2.1 c.2.2
      refine ih _ ?_
      rw [hu, he]
      by_cases hv : validateInput c.1 c.2.1
      · cases c.2.2 with
        | ok r => by_cases hr : r.success <;> simp [hv, hr] <;> omega
        | exn m => simp [hv]; omega
      · simp [hv]; omega

theorem successRate_bounds (st : ToolState) (h : st.error_count ≤ st.usage_count) :
    0 ≤ successRate st ∧ successRate st ≤ 1 := by
  unfold successRate
  split
  · rename_i hpos
    constructor
    · apply div_nonneg
      · have : (st.error_count : Rat) ≤ (st.usage_count : Rat) := by exact_mod_cast h
        linarith
      · positivity
    · rw [div_le_one (by positivity)]
      have : (0 : Rat) ≤ (st.error_count : Rat) := by positivity
      linarith
  · simp

theorem applyExecutionUpdate_fields (e : Execution) (args : UpdateArgs) (now : Nat) :
    (applyExecutionUpdate e args now).id = e.id ∧
    (applyExecutionUpdate e args now).deleted_at = e.deleted_at ∧
    (applyExecutionUpdate e args now).created_at = e.created_at ∧
    (applyExecutionUpdate e args now).goal = e.goal ∧
    (applyExecutionUpdate e args now).cost = e.cost + args.cost.getD 0 ∧
    (applyExecutionUpdate e args now).tokens_used = e.tokens_used + args.tokens_used.getD 0 ∧
    (applyExecutionUpdate e args now).status =
      (if strTruthy args.status then args.status.getD "" else e.status) ∧
    (applyExecutionUpdate e args now).final_result =
      (if args.final_result.isEmpty then e.final_result else args.final_result) := by
  unfold applyExecutionUpdate
  by_cases h1 : strTruthy args.status <;>
  by_cases h2 : strTruthy args.llm_provider <;>
  by_cases h3 : strTruthy args.error_message <;>
  by_cases h4 : args.final_result.isEmpty <;>
  cases hc : args.cost <;> cases ht : args.tokens_used <;>
  by_cases h5 : args.status.getD "" ∈ ["completed", "failed", "cancelled"] <;>
  simp [h1, h2, h3, h4, hc, ht, h5]

theorem find?_updateFirst_pres {p : Execution → Bool} {f : Execution → Execution}
    (hpf : ∀ e, p e = true → p (f e) = true) :
    ∀ db e, db.find? p = some e → (updateFirst p f db).find? p = some (f e) := by
  intro db
  induction db with
  | nil => simp
  | cons a rest ih =>
      intro e hfind
      by_cases ha : p a
      · rw [List.find?_cons_of_pos _ ha] at hfind
        obtain rfl : a = e := by simpa using hfind
        simp only [updateFirst]
        rw [if_pos ha, List.find?_cons_of_pos _ (hpf a ha)]
      · rw [List.find?_cons_of_neg _ ha] at hfind
        simp only [updateFirst]
        rw [if_neg ha, List.find?_cons_of_neg _ ha]
        exact ih e hfind

theorem get_execution_update (db : List Execution) (execId : String)
    (args : UpdateArgs) (now : Nat) :
    get_execution (update_execution db execId args now) execId =
      (get_execution db execId).map (fun e => applyExecutionUpdate e args now) := by
  unfold update_execution
  cases hfind : get_execution db execId with
  | none => simp [hfind]
  | some e =>
      simp only [hfind, Option.map_some']
      unfold get_execution at hfind ⊢
      refine find?_updateFirst_pres (fun x hx => ?_) db e hfind
      simp only [decide_eq_true_eq] at hx ⊢
      have hf := applyExecutionUpdate_fields x args now
      exact ⟨hf.1.trans hx.1, hf.2.1.trans hx.2⟩

theorem updateFirst_length (p : Execution → Bool) (f : Execution → Execution) :
    ∀ db : List Execution, (updateFirst p f db).length = db.length := by
  intro db
  induction db with
  | nil => rfl
  | cons a rest ih =>
      unfold updateFirst
      by_cases ha : p a <;> simp [ha, ih]

theorem updateFirst_mem_modified {p : Execution → Bool} {f : Execution → Execution} :
    ∀ db e, db.find? p = some e → f e ∈ updateFirst p f db := by
  intro db
  induction db with
  | nil => simp
  | cons a rest ih =>
      intro e hfind
      by_cases ha : p a
      · rw [List.find?_cons_of_pos _ ha] at hfind
        obtain rfl : a = e := by simpa using hfind
        simp only [updateFirst]
        rw [if_pos ha]
        exact List.mem_cons_self _ _
      · rw [List.find?_cons_of_neg _ ha] at hfind
        simp only [updateFirst]
        rw [if_neg ha]
        exact List.mem_cons_of_mem _ (ih e hfind)

/-! ## Claim theorems -/

/-- C7.  `BaseTool.run` error handling: a missing required field makes
validation fail and `run` return the fixed invalid-parameters failure without
entering `execute` (whatever `execute` would have done); supplying every
required field makes validation pass regardless of declared property types
(a type mismatch alone never fails); an exception from `execute` bumps the
error counter and surfaces the exception message; otherwise the result dict
comes back unchanged. -/
theorem run_error_handling_contract :
    (∀ (schema : ToolSchema) (st : ToolState) (params : List (String × PyValue))
        (o : ExecOutcome) (f : String),
      f ∈ schema.required → (∀ kv ∈ params, kv.1 ≠ f) →
      validateInput schema params = false ∧
      runTool schema st params o =
        { state := { st with usage_count := st.usage_count + 1,
                             error_count := st.error_count + 1 },
          result := { success := false, result := .none,
                      error := some "Invalid input parameters" },
          calledExecute := false }) ∧
    (∀ (schema : ToolSchema) (params : List (String × PyValue)),
      (∀ f ∈ schema.required, ∃ kv ∈ params, kv.1 = f) →
      validateInput schema params = true) ∧
    (∀ (schema : ToolSchema) (st : ToolState) (params : List (String × PyValue))
        (msg : String),
      validateInput schema params = true →
      runTool schema st params (.exn msg) =
        { state := { st with usage_count := st.usage_count + 1,
                             error_count := st.error_count + 1 },
          result := { success := false, result := .none, error := some msg },
          calledExecute := true }) ∧
    (∀ (schema : ToolSchema) (st : ToolState) (params : List (String × PyValue))
        (r : ToolResult),
      validateInput schema params = true →
      (runTool schema st params (.ok r)).result = r ∧
      (runTool schema st params (.ok r)).calledExecute = true) := by
  refine ⟨?_, ?_, ?_, ?_⟩
  · intro schema st params o f hf hmiss
    have hv : validateInput schema params = false := by
      apply Bool.eq_false_iff.mpr
      intro hall
      rw [validateInput, List.all_eq_true] at hall
      have hany := hall f hf
      rw [List.any_eq_true] at hany
      obtain ⟨kv, hkv, heq⟩ := hany
      exact hmiss kv hkv (by simpa using heq)
    refine ⟨hv, ?_⟩
    unfold runTool
    simp [hv]
  · intro schema params hall
    unfold validateInput
    simp only [List.all_eq_true, List.any_eq_true, decide_eq_true_eq]
    intro f hf
    exact hall f hf
  · intro schema st params msg hv
    unfold runTool
    simp [hv]
  · intro schema st params r hv
    unfold runTool
    by_cases hr : r.success <;> simp [hv, hr]

/-- Witness for C7 at concrete inputs: a missing required `query` field, a
full parameter set with a mismatched type, and a raising `execute`. -/
theorem run_error_handling_contract_witness :
    validateInput ⟨["query"], [("query", "string")]⟩ [("other", .int 1)] = false ∧
    (runTool ⟨["query"], [("query", "string")]⟩ ⟨4, 1⟩ [("other", .int 1)]
        (.ok { success := true, result := .int 3, error := Option.none })).result.error =
      some "Invalid input parameters" ∧
    validateInput ⟨["query"], [("query", "string")]⟩ [("query", .int 5)] = true ∧
    (runTool ⟨["query"], [("query", "string")]⟩ ⟨4, 1⟩ [("query", .int 5)]
        (.exn "boom")).result.error = some "boom" := by
  have h := run_error_handling_contract
  have h1 := h.1 ⟨["query"], [("query", "string")]⟩ ⟨4, 1⟩ [("other", .int 1)]
    (.ok { success := true, result := .int 3, error := Option.none }) "query"
    (by simp) (by simp)
  have h2 := h.2.1 ⟨["query"], [("query", "string")]⟩ [("query", .int 5)]
    (by intro f hf; simp at hf; subst hf; exact ⟨("query", .int 5), by simp, rfl⟩)
  have h3 := h.2.2.1 ⟨["query"], [("query", "string")]⟩ ⟨4, 1⟩ [("query", .int 5)] "boom" h2
  exact ⟨h1.1, by rw [h1.2], h2, by rw [h3]⟩

/-- C10.  Counter invariants of `BaseTool.run`/`get_stats`: every `run` call
bumps `usage_count` by exactly 1; `error_count` is bumped by exactly 1 on a
validation failure, an exception from `execute`, or a returned result with a
falsy `success` flag, and by 0 otherwise; hence along any call sequence from
a state with `error_count ≤ usage_count` the inequality is preserved, and
from the initial counters the reported success rate always lies in `[0, 1]`
(and is `0` before the first use). -/
theorem tool_counters_invariant :
    (∀ (schema : ToolSchema) (st : ToolState) (params : List (String × PyValue))
        (o : ExecOutcome),
      (runTool schema st params o).state.usage_count = st.usage_count + 1 ∧
      (runTool schema st params o).state.error_count = st.error_count +
        (if validateInput schema params then
          (match o with
           | .ok r => if r.success then 0 else 1
           | .exn _ => 1)
         else 1)) ∧
    (∀ (st : ToolState)
        (calls : List (ToolSchema × List (String × PyValue) × ExecOutcome)),
      st.error_count ≤ st.usage_count →
      (runToolTrace st calls).error_count ≤ (runToolTrace st calls).usage_count) ∧
    (∀ calls : List (ToolSchema × List (String × PyValue) × ExecOutcome),
      0 ≤ successRate (runToolTrace ToolState.init calls) ∧
      successRate (runToolTrace ToolState.init calls) ≤ 1) ∧
    successRate ToolState.init = 0 := by
  refine ⟨fun schema st params o => ⟨runTool_usage .., runTool_error ..⟩,
          fun st calls h => runToolTrace_counts st calls h, ?_, rfl⟩
  intro calls
  exact successRate_bounds _ (runToolTrace_counts ToolState.init calls (by simp [ToolState.init]))

/-- Witness for C10: a three-call trace — a validation failure, a
tool-reported failure, a success — from fresh counters, with the invariant
instantiated at concrete states. -/
theorem tool_counters_invariant_witness :
    (runTool ⟨["query"], []⟩ ⟨0, 0⟩ []
        (.ok { success := true, result := .int 1, error := Option.none })).state.usage_count = 1 ∧
    (runToolTrace ⟨2, 1⟩
        [(⟨[], []⟩, [], .ok { success := false, result := .none, error := some "e" })]).error_count ≤
      (runToolTrace ⟨2, 1⟩
        [(⟨[], []⟩, [], .ok { success := false, result := .none, error := some "e" })]).usage_count ∧
    0 ≤ successRate (runToolTrace ToolState.init
        [(⟨["query"], []⟩, [], .exn "boom"),
         (⟨[], []⟩, [], .ok { success := false, result := .none, error := some "e" }),
         (⟨[], []⟩, [], .ok { success := true, result := .int 1, error := Option.none })]) ∧
    successRate (runToolTrace ToolState.init
        [(⟨["query"], []⟩, [], .exn "boom"),
         (⟨[], []⟩, [], .ok { success := false, result := .none, error := some "e" }),
         (⟨[], []⟩, [], .ok { success := true, result := .int 1, error := Option.none })]) ≤ 1 := by
  have h := tool_counters_invariant
  refine ⟨(h.1 ⟨["query"], []⟩ ⟨0, 0⟩ []
      (.ok { success := true, result := .int 1, error := Option.none })).1, ?_, ?_, ?_⟩
  · exact h.2.1 ⟨2, 1⟩ _ (by simp)
  · exact (h.2.2.1 _).1
  · exact (h.2.2.1 _).2

/-- C2.  `update_execution` cost/token accounting is additive: on an existing
non-deleted execution, any two successive updates carrying cost and token
deltas leave the stored values at the original plus both deltas — never a
replacement. -/
theorem update_execution_cost_additive
    (db : List Execution) (execId : String) (e : Execution)
    (args1 args2 : UpdateArgs) (c1 c2 : Rat) (t1 t2 : Int) (now1 now2 : Nat)
    (hGet : get_execution db execId = some e)
    (h1 : args1.cost = some c1) (h2 : args2.cost = some c2)
    (ht1 : args1.tokens_used = some t1) (ht2 : args2.tokens_used = some t2) :
    ∃ e', get_execution (update_execution (update_execution db execId args1 now1)
            execId args2 now2) execId = some e' ∧
      e'.cost = e.cost + c1 + c2 ∧ e'.tokens_used = e.tokens_used + t1 + t2 := by
  rw [get_execution_update, get_execution_update, hGet]
  simp only [Option.map_some']
  refine ⟨_, rfl, ?_, ?_⟩
  · rw [(applyExecutionUpdate_fields _ args2 now2).2.2.2.2.1,
        (applyExecutionUpdate_fields e args1 now1).2.2.2.2.1, h1, h2]
    simp
  · rw [(applyExecutionUpdate_fields _ args2 now2).2.2.2.2.2.1,
        (applyExecutionUpdate_fields e args1 now1).2.2.2.2.2.1, ht1, ht2]
    simp

/-- Witness for C2: the spec's concrete scenario — an execution created with
cost `0.0`, updated with `cost=1.5` then `cost=2.5`, reads back `4.0`. -/
theorem update_execution_cost_additive_witness :
    ∃ e', get_execution
        (update_execution
          (update_execution (create_execution [] "e1" "Test goal" 0) "e1"
            { cost := some (3/2), tokens_used := some 10 } 1)
          "e1" { cost := some (5/2), tokens_used := some 20 } 2) "e1" = some e' ∧
      e'.cost = 4 ∧ e'.tokens_used = 30 := by
  obtain ⟨e', hg, hc, ht⟩ :=
    update_execution_cost_additive (create_execution [] "e1" "Test goal" 0) "e1" _
      { cost := some (3/2), tokens_used := some 10 }
      { cost := some (5/2), tokens_used := some 20 }
      (3/2) (5/2) 10 20 1 2 rfl rfl rfl rfl rfl
  refine ⟨e', hg, ?_, ?_⟩
  · rw [hc]; norm_num [create_execution]
  · rw [ht]; norm_num [create_execution]

theorem countP_tail_none {idp : Execution → Bool} {a : Execution} {db : List Execution}
    (hU : (a :: db).countP idp ≤ 1) (ha : idp a = true) :
    ∀ x ∈ db, idp x = false := by
  intro x hx
  by_contra hxt
  rw [Bool.not_eq_false] at hxt
  rw [List.countP_cons, ha, if_pos rfl] at hU
  have hpos := List.countP_pos_iff.mpr ⟨x, hx, hxt⟩
  omega

theorem find?_updateFirst_none (p idp : Execution → Bool) (f : Execution → Execution)
    (hpid : ∀ e, p e = true → idp e = true)
    (hpf : ∀ e, p (f e) = false) :
    ∀ db : List Execution, db.countP idp ≤ 1 →
      ∀ e, db.find? p = some e → (updateFirst p f db).find? p = Option.none := by
  intro db
  induction db with
  | nil => simp
  | cons a rest ih =>
      intro hU e hfind
      by_cases ha : p a
      · simp only [updateFirst]
        rw [if_pos ha, List.find?_cons_of_neg _ (by simp [hpf a])]
        rw [List.find?_eq_none]
        intro x hx hpx
        have := countP_tail_none hU (hpid a ha) x hx
        rw [hpid x hpx] at this
        exact Bool.noConfusion this
      · rw [List.find?_cons_of_neg _ ha] at hfind
        simp only [updateFirst]
        rw [if_neg ha, List.find?_cons_of_neg _ ha]
        refine ih ?_ e hfind
        rw [List.countP_cons] at hU
        omega

theorem updateFirst_unique_modified (p idp : Execution → Bool) (f : Execution → Execution)
    (q : Execution → Prop)
    (hpid : ∀ e, p e = true → idp e = true)
    (hq : ∀ e, q (f e)) :
    ∀ db : List Execution, db.countP idp ≤ 1 →
      ∀ e, db.find? p = some e →
      ∀ x ∈ updateFirst p f db, idp x = true → q x := by
  intro db
  induction db with
  | nil => simp
  | cons a rest ih =>
      intro hU e hfind x hx hxid
      by_cases ha : p a
      · simp only [updateFirst] at hx
        rw [if_pos ha] at hx
        rcases List.mem_cons.mp hx with hxa | hxr
        · rw [hxa]; exact hq a
        · have := countP_tail_none hU (hpid a ha) x hxr
          rw [hxid] at this
          exact Bool.noConfusion this
      · rw [List.find?_cons_of_neg _ ha] at hfind
        simp only [updateFirst] at hx
        rw [if_neg ha] at hx
        rcases List.mem_cons.mp hx with hxa | hxr
        · exfalso
          have hemem := List.mem_of_find?_eq_some hfind
          have heid := hpid e (List.find?_some hfind)
          have := countP_tail_none hU (hxa ▸ hxid) e hemem
          rw [heid] at this
          exact Bool.noConfusion this
        · refine ih ?_ e hfind x hxr hxid
          rw [List.countP_cons] at hU
          omega

theorem mem_list_executions (db : List Execution) (skip limit : Nat)
    (status search : Option String) :
    ∀ x ∈ list_executions db skip limit status search,
      x ∈ db ∧ x.deleted_at = Option.none := by
  intro x hx
  unfold list_executions at hx
  have hx1 := List.drop_subset _ _ (List.take_subset _ _ hx)
  have hms := List.mem_mergeSort.mp hx1
  have hx2 : x ∈ db.filter (fun e => e.deleted_at = Option.none) := by
    split at hms
    · split at hms
      · exact List.mem_of_mem_filter (List.mem_of_mem_filter hms)
      · exact List.mem_of_mem_filter hms
    · split at hms
      · exact List.mem_of_mem_filter hms
      · exact hms
  obtain ⟨hmem, hdel⟩ := List.mem_filter.mp hx2
  exact ⟨hmem, by simpa using hdel⟩

/-- C6.  `delete_execution` is a soft delete: it reports `true` exactly when
a non-deleted row with the id existed; a successful delete stamps
`deleted_at`, forces the status to `cancelled`, hides the row from
`get_execution` and from every `list_executions` query, and leaves the table
size unchanged.  (`hU` is the primary-key uniqueness of `Execution.id`.) -/
theorem delete_execution_soft_delete
    (db : List Execution) (execId : String) (now : Nat)
    (hU : db.countP (fun x => decide (x.id = execId)) ≤ 1) :
    (delete_execution db execId now).2 = (get_execution db execId).isSome ∧
    ((delete_execution db execId now).2 = true →
      get_execution (delete_execution db execId now).1 execId = Option.none ∧
      (∀ skip limit status search,
        ∀ x ∈ list_executions (delete_execution db execId now).1 skip limit status search,
          x.id ≠ execId) ∧
      (delete_execution db execId now).1.length = db.length ∧
      ∃ x ∈ (delete_execution db execId now).1,
        x.id = execId ∧ x.deleted_at = some now ∧ x.status = "cancelled") := by
  cases hg : get_execution db execId with
  | none =>
      refine ⟨by simp [delete_execution, hg], fun htrue => ?_⟩
      exfalso
      simp [delete_execution, hg] at htrue
  | some e =>
      have hfind : db.find? (fun x => decide (x.id = execId ∧ x.deleted_at = Option.none))
          = some e := hg
      refine ⟨by simp [delete_execution, hg], fun _ => ?_⟩
      have hdb1 : (delete_execution db execId now).1 =
          updateFirst (fun x => decide (x.id = execId ∧ x.deleted_at = Option.none))
            (fun x => { x with deleted_at := some now, status := "cancelled" }) db := by
        simp [delete_execution, hg]
      refine ⟨?_, ?_, ?_, ?_⟩
      · rw [hdb1]
        refine find?_updateFirst_none _ (fun x => decide (x.id = execId)) _
          (fun x hx => by simpa using (of_decide_eq_true hx).1) (fun x => by simp)
          db hU e hfind
      · intro skip limit status search x hx hxid
        rw [hdb1] at hx
        obtain ⟨hmem, hdel⟩ := mem_list_executions _ skip limit status search x hx
        have := updateFirst_unique_modified _ (fun y => decide (y.id = execId)) _
          (fun y => y.deleted_at = some now)
          (fun y hy => by simpa using (of_decide_eq_true hy).1) (fun y => rfl)
          db hU e hfind x hmem (by simp [hxid])
        rw [this] at hdel
        exact Option.noConfusion hdel
      · rw [hdb1]
        exact updateFirst_length _ _ db
      · rw [hdb1]
        refine ⟨_, updateFirst_mem_modified db e hfind, ?_, rfl, rfl⟩
        have he := List.find?_some hfind
        simpa using (of_decide_eq_true he).1

/-- Witness for C6: create one execution, delete it, observe the reported
flag, the hidden lookup, the empty listing, and the surviving row. -/
theorem delete_execution_soft_delete_witness :
    (delete_execution (create_execution [] "e1" "Test goal" 0) "e1" 5).2 = true ∧
    get_execution (delete_execution (create_execution [] "e1" "Test goal" 0) "e1" 5).1 "e1"
      = Option.none ∧
    (delete_execution (create_execution [] "e1" "Test goal" 0) "e1" 5).1.length = 1 := by
  have h := delete_execution_soft_delete (create_execution [] "e1" "Test goal" 0) "e1" 5
    (by decide)
  have htrue : (delete_execution (create_execution [] "e1" "Test goal" 0) "e1" 5).2 = true := by
    rw [h.1]; rfl
  exact ⟨htrue, (h.2 htrue).1, ((h.2 htrue).2.2.1).trans rfl⟩

/-- C3.  LLM manager failover: a primary success is returned as-is; on a
primary exception with a configured fallback the fallback's own outcome
(success or its own exception) is what the caller sees, the primary's
exception never surfacing; with no fallback the primary's exception
propagates.  The four equations cover every case of one call, so there is
never more than the single primary-to-fallback hop. -/
theorem llm_manager_failover :
    (∀ (r : GenResult) (fallback : Option (Except String GenResult)),
        managerCall (some (.ok r)) fallback = .ok r) ∧
    (∀ (e : String) (r : GenResult),
        managerCall (some (.error e)) (some (.ok r)) = .ok r) ∧
    (∀ (e e2 : String),
        managerCall (some (.error e)) (some (.error e2)) = .error e2) ∧
    (∀ e : String, managerCall (some (.error e)) Option.none = .error e) :=
  ⟨fun _ _ => rfl, fun _ _ => rfl, fun _ _ => rfl, fun _ => rfl⟩

theorem executeTaskStep_open (breakers : String → Nat) (t : String) (o : TaskExecResult)
    (h : breakers t ≥ maxFailures) :
    executeTaskStep breakers t o =
      (breakers,
       { failedMessage := some ("Tool " ++ t ++ " is disabled due to repeated failures"),
         toolInvoked := false }) := by
  unfold executeTaskStep
  rw [if_pos h]

theorem executeTaskStep_apply (breakers : String → Nat) (u t : String) (o : TaskExecResult)
    (h : breakers t ≥ maxFailures) :
    (executeTaskStep breakers u o).1 t = breakers t := by
  unfold executeTaskStep
  by_cases hu : breakers u ≥ maxFailures
  · rw [if_pos hu]
  · rw [if_neg hu]
    cases o with
    | raised m => rfl
    | res s e =>
        simp only
        by_cases htu : t = u
        · subst htu; omega
        · simp [htu]

theorem executeTaskStep_fail (breakers : String → Nat) (t : String) (e : String)
    (h : ¬ breakers t ≥ maxFailures) :
    (executeTaskStep breakers t (.res false e)).1 t = breakers t + 1 := by
  unfold executeTaskStep
  rw [if_neg h]
  simp

/-- C4.  The execution engine's per-tool circuit breaker: once a tool's
consecutive-failure count reaches 3 (`max_failures`), every task naming that
tool short-circuits with the disabled-tool message, without invoking the
tool and without changing any counter — and no later task sequence can bring
the count back down, since a same-tool success would require an invocation
the open breaker prevents and other tools only touch their own counters;
below the threshold, a failure adds one, a success resets that tool's count
to 0 with the tool invoked, and a step on a different tool never changes
this tool's count. -/
theorem circuit_breaker_disables_tool :
    (∀ (breakers : String → Nat) (t : String) (o : TaskExecResult),
        breakers t ≥ maxFailures →
        executeTaskStep breakers t o =
          (breakers,
           { failedMessage := some ("Tool " ++ t ++ " is disabled due to repeated failures"),
             toolInvoked := false })) ∧
    (∀ (breakers : String → Nat) (t : String) (steps : List (String × TaskExecResult)),
        breakers t ≥ maxFailures → runTasks breakers steps t = breakers t) ∧
    (∀ (breakers : String → Nat) (t : String) (e1 e2 e3 : String),
        breakers t = 0 →
        runTasks breakers [(t, .res false e1), (t, .res false e2), (t, .res false e3)] t
          = maxFailures) ∧
    (∀ (breakers : String → Nat) (t : String) (errMsg : String),
        breakers t < maxFailures →
        (executeTaskStep breakers t (.res true errMsg)).1 t = 0 ∧
        (executeTaskStep breakers t (.res true errMsg)).2.toolInvoked = true ∧
        (executeTaskStep breakers t (.res false errMsg)).1 t = breakers t + 1) ∧
    (∀ (breakers : String → Nat) (t u : String) (o : TaskExecResult),
        u ≠ t → (executeTaskStep breakers u o).1 t = breakers t) := by
  refine ⟨executeTaskStep_open, ?_, ?_, ?_, ?_⟩
  · intro breakers t steps
    induction steps generalizing breakers with
    | nil => intro _; rfl
    | cons s rest ih =>
        intro hb
        show runTasks (executeTaskStep breakers s.1 s.2).1 rest t = breakers t
        rw [ih _ (by rw [executeTaskStep_apply _ s.1 t s.2 hb]; exact hb),
            executeTaskStep_apply _ s.1 t s.2 hb]
  · intro breakers t e1 e2 e3 h0
    have h1 := executeTaskStep_fail breakers t e1 (by rw [h0]; decide)
    have h2 := executeTaskStep_fail (executeTaskStep breakers t (.res false e1)).1 t e2
      (by rw [h1, h0]; decide)
    have h3 := executeTaskStep_fail
      (executeTaskStep (executeTaskStep breakers t (.res false e1)).1 t (.res false e2)).1 t e3
      (by rw [h2, h1, h0]; decide)
    show (executeTaskStep (executeTaskStep (executeTaskStep breakers t
        (.res false e1)).1 t (.res false e2)).1 t (.res false e3)).1 t = maxFailures
    rw [h3, h2, h1, h0]
    rfl
  · intro breakers t errMsg h
    have hne : ¬ breakers t ≥ maxFailures := by omega
    refine ⟨?_, ?_, executeTaskStep_fail breakers t errMsg hne⟩
    · unfold executeTaskStep
      rw [if_neg hne]
      simp
    · unfold executeTaskStep
      rw [if_neg hne]
  · intro breakers t u o hut
    unfold executeTaskStep
    by_cases hu : breakers u ≥ maxFailures
    · rw [if_pos hu]
    · rw [if_neg hu]
      cases o with
      | raised m => rfl
      | res s e =>
          dsimp only
          rw [if_neg (Ne.symm hut)]

/-- Witness for C4: from fresh counters, three consecutive `web_search`
failures trip the breaker; the next `web_search` task short-circuits with
the disabled-tool message without invoking the tool; a success at count 2
resets `web_search` to 0, while a `calculator` success leaves it at 2. -/
theorem circuit_breaker_disables_tool_witness :
    runTasks (fun _ => 0)
      [("web_search", .res false "err"), ("web_search", .res false "err"),
       ("web_search", .res false "err")] "web_search" = 3 ∧
    (executeTaskStep (fun _ => 3) "web_search" (.res true "")).2.failedMessage =
      some "Tool web_search is disabled due to repeated failures" ∧
    (executeTaskStep (fun _ => 3) "web_search" (.res true "")).2.toolInvoked = false ∧
    (executeTaskStep (fun _ => 2) "web_search" (.res true "")).1 "web_search" = 0 ∧
    (executeTaskStep (fun _ => 2) "calculator" (.res true "")).1 "web_search" = 2 := by
  have h := circuit_breaker_disables_tool
  refine ⟨?_, ?_, ?_, ?_, ?_⟩
  · exact h.2.2.1 (fun _ => 0) "web_search" "err" "err" "err" rfl
  · rw [h.1 (fun _ => 3) "web_search" _ (by decide)]
    rfl
  · rw [h.1 (fun _ => 3) "web_search" _ (by decide)]
  · exact (h.2.2.2.1 (fun _ => 2) "web_search" "" (by decide)).1
  · exact h.2.2.2.2 (fun _ => 2) "web_search" "calculator" (.res true "") (by decide)

/-- C5.  `file_ops` write confinement: whenever a write actually writes a
file, that file is `file_workspace/<name>` where `<name>` is precisely the
final name component of the supplied path — any directory part, including
`..` traversal, is discarded — so every written path lies strictly inside
the workspace; in every other case (empty or `..` name, missing data,
unsupported type) nothing is written at all. -/
theorem file_ops_write_confinement
    (file_path fileType : String) (hasData : Bool) (p : List String)
    (hw : (fileOpsWriteExec file_path fileType hasData).written = some p) :
    p = workDir ++ [pathName file_path] ∧ workDir <+: p ∧ p ≠ workDir ∧ p ≠ projectRoot := by
  by_cases hn : pathName file_path = ""
  · exfalso
    have htarget : fileOpsWriteTarget file_path = workDir := by
      rw [fileOpsWriteTarget, if_pos hn]; rfl
    unfold fileOpsWriteExec at hw
    rw [htarget] at hw
    cases hasData <;>
      by_cases hft : fileType = "csv" ∨ fileType = "json" ∨ fileType = "text" <;>
      simp [hft, show projectRoot.isPrefixOf workDir = true from rfl] at hw
  · by_cases hdd : pathName file_path = ".."
    · exfalso
      have htarget : fileOpsWriteTarget file_path = projectRoot := by
        rw [fileOpsWriteTarget, if_neg hn, hdd]; rfl
      unfold fileOpsWriteExec at hw
      rw [htarget] at hw
      cases hasData <;>
        by_cases hft : fileType = "csv" ∨ fileType = "json" ∨ fileType = "text" <;>
        simp [hft, show projectRoot.isPrefixOf projectRoot = true from rfl] at hw
    · have htarget : fileOpsWriteTarget file_path = workDir ++ [pathName file_path] := by
        rw [fileOpsWriteTarget, if_neg hn]
        simp [resolveUnder, hdd]
      have hpre : projectRoot.isPrefixOf (workDir ++ [pathName file_path]) = true := rfl
      have hdir : ¬(workDir ++ [pathName file_path] = projectRoot ∨
          workDir ++ [pathName file_path] = workDir) := by
        simp [workDir, projectRoot]
      unfold fileOpsWriteExec at hw
      rw [htarget] at hw
      rw [hpre] at hw
      cases hasData with
      | false => simp at hw
      | true =>
          by_cases hft : fileType = "csv" ∨ fileType = "json" ∨ fileType = "text"
          · rw [if_neg (by simp), if_neg (by simp), if_pos hft, if_neg hdir] at hw
            simp only [Option.some.injEq] at hw
            subst hw
            refine ⟨rfl, ⟨[pathName file_path], rfl⟩, ?_, ?_⟩
            · intro hcontra
              have := congrArg List.length hcontra
              simp [workDir, projectRoot] at this
            · intro hcontra
              have := congrArg List.length hcontra
              simp [workDir, projectRoot] at this
          · rw [if_neg (by simp), if_neg (by simp), if_neg hft] at hw
            simp at hw

/-- Witness for C5: a traversal path `../../../etc/passwd.json` writes
exactly `file_workspace/passwd.json`. -/
theorem file_ops_write_confinement_witness :
    (fileOpsWriteExec "../../../etc/passwd.json" "json" true).written =
      some (workDir ++ ["passwd.json"]) ∧
    workDir ++ ["passwd.json"] = workDir ++ [pathName "../../../etc/passwd.json"] ∧
    workDir <+: workDir ++ ["passwd.json"] ∧
    workDir ++ ["passwd.json"] ≠ workDir := by
  have hw : (fileOpsWriteExec "../../../etc/passwd.json" "json" true).written =
      some (workDir ++ ["passwd.json"]) := by decide
  have h := file_ops_write_confinement "../../../etc/passwd.json" "json" true
    (workDir ++ ["passwd.json"]) hw
  exact ⟨hw, h.1.symm ▸ rfl, h.2.1, h.2.2.1⟩

theorem resolveDepOne_placeholder
    (acc : List (String × PyValue) × List (String × PyValue)) (depId s : String)
    (err : Option String) (h : strUpper s = "PLACEHOLDER") :
    resolveDepOne acc depId (some { success := true, result := .str s, error := err }) = acc := by
  unfold resolveDepOne
  simp [isPlaceholderStr, h]

theorem resolveDeps_fold_placeholder (taskResults : String → Option DepResult) :
    ∀ deps : List String,
      (∀ d ∈ deps, ∃ s err, strUpper s = "PLACEHOLDER" ∧
          taskResults d = some { success := true, result := .str s, error := err }) →
      ∀ acc : List (String × PyValue) × List (String × PyValue),
        deps.foldl (fun acc d => resolveDepOne acc d (taskResults d)) acc = acc := by
  intro deps
  induction deps with
  | nil => intro _ acc; rfl
  | cons d rest ih =>
      intro hall acc
      obtain ⟨sd, errd, hs, hres⟩ := hall d (List.mem_cons_self _ _)
      simp only [List.foldl_cons, hres, resolveDepOne_placeholder acc d sd errd hs]
      exact ih (fun x hx => hall x (List.mem_cons_of_mem _ hx)) acc

/-- C8 counterexample: the claim asserts a `file_ops` call whose supplied
file path is the literal `PLACEHOLDER` token "fails immediately with an
explanatory error without attempting the file operation", but
`FileOpsTool.execute` has no placeholder guard at all: a write with
`file_path="PLACEHOLDER"` succeeds and creates `file_workspace/PLACEHOLDER`. -/
theorem placeholder_file_ops_counterexample :
    (fileOpsWriteExec "PLACEHOLDER" "json" true).success = true ∧
    (fileOpsWriteExec "PLACEHOLDER" "json" true).error = Option.none ∧
    (fileOpsWriteExec "PLACEHOLDER" "json" true).written =
      some (workDir ++ ["PLACEHOLDER"]) :=
  ⟨rfl, rfl, rfl⟩

/-- C8 (amended).  The execution engine never injects a dependency result
string equal to `PLACEHOLDER` (any letter case) into a downstream task's
resolved parameters — such a dependency contributes nothing at all — and an
`api_client` call whose url is the literal `PLACEHOLDER` token fails
immediately with an explanatory error without attempting the HTTP
operation; `file_ops`, however, has no placeholder guard: a write whose
path is `PLACEHOLDER` succeeds, creating `file_workspace/PLACEHOLDER`. -/
theorem placeholder_guarding_amended :
    (∀ (acc : List (String × PyValue) × List (String × PyValue)) (depId s : String)
        (err : Option String), strUpper s = "PLACEHOLDER" →
        resolveDepOne acc depId (some { success := true, result := .str s, error := err })
          = acc) ∧
    (∀ (inputParams : List (String × PyValue)) (deps : List String)
        (taskResults : String → Option DepResult),
        (∀ d ∈ deps, ∃ s err, strUpper s = "PLACEHOLDER" ∧
            taskResults d = some { success := true, result := .str s, error := err }) →
        resolveDependencies inputParams deps taskResults = inputParams) ∧
    (∀ (url method : String) (http : String → String → APIOutcome),
        strUpper url = "PLACEHOLDER" →
        apiClientExecute url method http =
          { success := false,
            error := some "URL contains placeholder value. This task likely depends on a previous task that failed.",
            httpAttempted := false }) ∧
    ((fileOpsWriteExec "PLACEHOLDER" "json" true).success = true ∧
     (fileOpsWriteExec "PLACEHOLDER" "json" true).written =
       some (workDir ++ ["PLACEHOLDER"])) := by
  refine ⟨resolveDepOne_placeholder, ?_, ?_, ⟨rfl, rfl⟩⟩
  · intro inputParams deps taskResults h
    unfold resolveDependencies
    rw [resolveDeps_fold_placeholder taskResults deps h (inputParams, [])]
    rfl
  · intro url method http hu
    have hne : url ≠ "" := by
      intro he
      rw [he] at hu
      exact absurd hu (by decide)
    have hguard : apiClientPlaceholderGuard url = true := by
      unfold apiClientPlaceholderGuard
      simp [hne, hu]
    unfold apiClientExecute
    rw [if_pos hguard]

/-- Witness for C8 (amended) at concrete inputs: a mixed-case placeholder
dependency result is dropped, a whole dependency list of placeholders leaves
the input parameters untouched, a lowercase-placeholder url short-circuits
the HTTP client, and the unguarded `file_ops` write goes through. -/
theorem placeholder_guarding_amended_witness :
    resolveDepOne ([("x", .int 1)], []) "t1"
      (some { success := true, result := .str "Placeholder", error := Option.none })
      = ([("x", .int 1)], []) ∧
    resolveDependencies [("x", .int 1)] ["t1", "t2"]
      (fun _ => some { success := true, result := .str "pLaCeHoLdEr", error := Option.none })
      = [("x", .int 1)] ∧
    apiClientExecute "placeholder" "GET"
      (fun _ _ => { success := true, error := Option.none, httpAttempted := true }) =
      { success := false,
        error := some "URL contains placeholder value. This task likely depends on a previous task that failed.",
        httpAttempted := false } ∧
    (fileOpsWriteExec "PLACEHOLDER" "json" true).success = true := by
  have h := placeholder_guarding_amended
  refine ⟨h.1 _ "t1" "Placeholder" Option.none (by decide), ?_, ?_, h.2.2.2.1⟩
  · exact h.2.1 _ _ _ (fun d _ => ⟨"pLaCeHoLdEr", Option.none, by decide, rfl⟩)
  · exact h.2.2.1 "placeholder" "GET" _ (by decide)

/-- C9 counterexample: with no primary LLM provider configured,
`store_execution` stores the context `"Execution {execution_id}: {goal}"`,
not the `"Execution goal: {goal}"` template the claim names. -/
theorem memory_context_counterexample :
    store_execution_context false (.error "LLM failed") "e1" "Test goal"
      = "Execution e1: Test goal" ∧
    ("Execution e1: Test goal" : String) ≠ "Execution goal: Test goal" :=
  ⟨rfl, by decide⟩

/-- C9 (amended).  When a primary provider is configured and the LLM context
call raises, the stored context is the `"Execution goal: {goal}"` template;
when no primary provider is configured the LLM is not consulted and the
stored context is `"Execution {execution_id}: {goal}"` instead. -/
theorem memory_context_fallback_amended :
    (∀ (msg goal : String),
        generate_context_with_llm (.error msg) goal = "Execution goal: " ++ goal) ∧
    (∀ (msg executionId goal : String),
        store_execution_context true (.error msg) executionId goal
          = "Execution goal: " ++ goal) ∧
    (∀ (llm : Except String String) (executionId goal : String),
        store_execution_context false llm executionId goal
          = "Execution " ++ executionId ++ ": " ++ goal) :=
  ⟨fun _ _ => rfl, fun _ _ _ => rfl, fun _ _ _ => rfl⟩

theorem applyExecutionUpdate_status_completed (e : Execution) (args : UpdateArgs)
    (now : Nat) (h : args.status = some "completed") :
    (applyExecutionUpdate e args now).status = "completed" := by
  rw [(applyExecutionUpdate_fields e args now).2.2.2.2.2.2.1, h]
  rfl

theorem reactLoopGo_no_final (responses : Nat → LLMToolResponse) (M : Nat)
    (hNoFinal : ∀ n, isFinalAnswerContent (responses n).content = false) :
    ∀ st : LoopState, st.finalAnswer = Option.none →
      (reactLoopGo responses M st).finalAnswer = Option.none ∧
      (reactLoopGo responses M st).iteration = max M st.iteration := by
  have H : ∀ k : Nat, ∀ st : LoopState, M - st.iteration ≤ k →
      st.finalAnswer = Option.none →
      (reactLoopGo responses M st).finalAnswer = Option.none ∧
      (reactLoopGo responses M st).iteration = max M st.iteration := by
    intro k
    induction k with
    | zero =>
        intro st hk hfa
        rw [reactLoopGo, dif_neg (by omega)]
        exact ⟨hfa, by omega⟩
    | succ k ih =>
        intro st hk hfa
        by_cases hlt : st.iteration < M
        · have hcond : ¬((responses (st.iteration + 1)).content ≠ "" ∧
              (responses (st.iteration + 1)).toolCalls.isEmpty = true ∧
              isFinalAnswerContent (responses (st.iteration + 1)).content = true) := by
            intro hc
            have hf := hc.2.2
            rw [hNoFinal] at hf
            exact Bool.noConfusion hf
          have hstep : reactLoopGo responses M st =
              reactLoopGo responses M
                { iteration := st.iteration + 1,
                  total_cost := st.total_cost + (responses (st.iteration + 1)).cost,
                  total_tokens := st.total_tokens + (responses (st.iteration + 1)).tokens_used,
                  finalAnswer := Option.none } := by
            rw [reactLoopGo, dif_pos ⟨hfa, hlt⟩]
            simp only [if_neg hcond]
          rw [hstep]
          obtain ⟨h1, h2⟩ := ih
            { iteration := st.iteration + 1,
              total_cost := st.total_cost + (responses (st.iteration + 1)).cost,
              total_tokens := st.total_tokens + (responses (st.iteration + 1)).tokens_used,
              finalAnswer := Option.none }
            (show M - (st.iteration + 1) ≤ k by omega) rfl
          refine ⟨h1, ?_⟩
          rw [h2]
          show max M (st.iteration + 1) = max M st.iteration
          omega
        · rw [reactLoopGo, dif_neg (by omega)]
          exact ⟨hfa, by omega⟩
  intro st
  exact H (M - st.iteration) st (le_refl _)

/-- C1.  ReAct iteration cap: when every LLM response along a goal execution
carries no final-answer indicator and no tool call, the loop runs exactly 20
iterations (the default `max_iterations`), the final answer is the literal
`"Maximum iterations reached. Task may be incomplete."`, and the terminal
database write sets `status="completed"` (a terminal value, applied by
`update_execution` to whatever non-deleted row it addresses) with a
`final_result` recording 20 iterations and that answer. -/
theorem react_direct_max_iterations
    (responses : Nat → LLMToolResponse)
    (hNoFinal : ∀ n, isFinalAnswerContent (responses n).content = false)
    (_hNoTools : ∀ n, (responses n).toolCalls = []) :
    (execute_goal responses defaultMaxIterations).iterations = 20 ∧
    (execute_goal responses defaultMaxIterations).finalAnswer =
      "Maximum iterations reached. Task may be incomplete." ∧
    (execute_goal responses defaultMaxIterations).updateArgs.status = some "completed" ∧
    dictGet (execute_goal responses defaultMaxIterations).updateArgs.final_result
      "iterations" = some (.int 20) ∧
    dictGet (execute_goal responses defaultMaxIterations).updateArgs.final_result
      "answer" = some (.str "Maximum iterations reached. Task may be incomplete.") ∧
    (∀ (e : Execution) (now : Nat),
      (applyExecutionUpdate e (execute_goal responses defaultMaxIterations).updateArgs
        now).status = "completed") := by
  obtain ⟨hfa, hit⟩ := reactLoopGo_no_final responses defaultMaxIterations hNoFinal
    { iteration := 0, total_cost := 0, total_tokens := 0, finalAnswer := Option.none } rfl
  have hit20 : (reactLoopGo responses defaultMaxIterations
      { iteration := 0, total_cost := 0, total_tokens := 0,
        finalAnswer := Option.none }).iteration = 20 := by
    rw [hit]; rfl
  have hout : execute_goal responses defaultMaxIterations =
      { iterations := 20,
        finalAnswer := "Maximum iterations reached. Task may be incomplete.",
        updateArgs :=
          { status := some "completed",
            cost := some (reactLoopGo responses defaultMaxIterations
              { iteration := 0, total_cost := 0, total_tokens := 0,
                finalAnswer := Option.none }).total_cost,
            tokens_used := some ((reactLoopGo responses defaultMaxIterations
              { iteration := 0, total_cost := 0, total_tokens := 0,
                finalAnswer := Option.none }).total_tokens : Int),
            final_result :=
              [("answer", .str "Maximum iterations reached. Task may be incomplete."),
               ("iterations", .int 20)] } } := by
    simp only [execute_goal]
    rw [hfa, hit20]
    norm_num [defaultMaxIterations]
    decide
  rw [hout]
  refine ⟨rfl, rfl, rfl, rfl, rfl, ?_⟩
  intro e now
  exact applyExecutionUpdate_status_completed e _ now rfl

/-- A plain reasoning reply with no tool call and no final-answer
indicator, used to instantiate the C1 oracle. -/
def stuckResponse : LLMToolResponse :=
  { content := "still thinking", toolCalls := [], tokens_used := 5, cost := 0 }

/-- Witness for C1: an oracle that always answers plain non-final reasoning
text with no tool calls runs to the 20-iteration cap. -/
theorem react_direct_max_iterations_witness :
    (execute_goal (fun _ => stuckResponse) defaultMaxIterations).iterations = 20 ∧
    (execute_goal (fun _ => stuckResponse) defaultMaxIterations).finalAnswer =
      "Maximum iterations reached. Task may be incomplete." ∧
    (execute_goal (fun _ => stuckResponse) defaultMaxIterations).updateArgs.status =
      some "completed" ∧
    dictGet (execute_goal (fun _ => stuckResponse)
        defaultMaxIterations).updateArgs.final_result "iterations" = some (.int 20) := by
  have h := react_direct_max_iterations (fun _ => stuckResponse)
    (fun _ => (by decide : isFinalAnswerContent stuckResponse.content = false))
    (fun _ => (rfl : stuckResponse.toolCalls = []))
  exact ⟨h.1, h.2.1, h.2.2.1, h.2.2.2.1⟩

end AgentFinance
